import Mathlib

/-!
Verification of the neuronika computation-graph node protocol.

Tensors are embedded as a shape (list of extents) together with a flat
row-major data list over `Q`, a kernel-computable exact rational type (the
Rust code computes over `f32`; the arithmetic dataflow is modelled exactly,
with rational arithmetic standing in for float arithmetic).  Interior
mutability (`RefCell`/`Cell`) becomes explicit state passing; a Rust panic
becomes `Except.error`.
-/

namespace Neuronika

/-! ### Exact rational scalars

A self-contained rational type whose operations are plain structural
recursion, so that every concrete computation in this file reduces inside
the kernel.  Values produced by the operations are kept in lowest terms
with a positive denominator. -/

/-- Euclid's algorithm with explicit fuel (the first argument strictly
    decreases, so `a + 1` steps always suffice). -/
def gcdFuel : Nat → Nat → Nat → Nat
  | 0, _, b => b
  | fuel + 1, a, b =>
    match a with
    | 0 => b
    | _ + 1 => gcdFuel fuel (b % a) a

/-- Greatest common divisor, via `gcdFuel`. -/
def natGcd (a b : Nat) : Nat := gcdFuel (a + 1) a b

/-- An exact rational scalar: numerator and positive denominator. -/
structure Q where
  num : Int
  den : Int
deriving Repr, DecidableEq

/-- Normalize a fraction: positive denominator, lowest terms (a zero
    denominator, which no well-formed computation produces, maps to 0). -/
def qnorm (n d : Int) : Q :=
  if d = 0 then ⟨0, 1⟩
  else
    let n' := if d < 0 then -n else n
    let d' := if d < 0 then -d else d
    let g : Int := Int.ofNat (natGcd n'.natAbs d'.natAbs)
    ⟨n' / g, d' / g⟩

def Q.add (x y : Q) : Q := qnorm (x.num * y.den + y.num * x.den) (x.den * y.den)

def Q.neg (x : Q) : Q := ⟨-x.num, x.den⟩

def Q.mul (x y : Q) : Q := qnorm (x.num * y.num) (x.den * y.den)

/-- Division (a zero divisor, which the division node's contract excludes,
    maps to 0: the Rust `f32` would give an infinity there). -/
def Q.div (x y : Q) : Q := qnorm (x.num * y.den) (x.den * y.num)

instance : Add Q := ⟨Q.add⟩

instance : Neg Q := ⟨Q.neg⟩

instance : Mul Q := ⟨Q.mul⟩

instance : Div Q := ⟨Q.div⟩

instance : OfNat Q n := ⟨⟨n, 1⟩⟩

def Q.pow (x : Q) : Nat → Q
  | 0 => 1
  | n + 1 => x * x.pow n

instance : Pow Q Nat := ⟨Q.pow⟩

instance : Zero Q := ⟨⟨0, 1⟩⟩

/-- A tensor shape: the list of extents, outermost axis first. -/
abbrev Shape := List Nat

/-- Row-major enumeration of all multi-indices of a shape. -/
def indicesOf : Shape → List (List Nat)
  | [] => [[]]
  | n :: s => (List.range n).flatMap fun i => (indicesOf s).map fun idx => i :: idx

/-- A dense tensor: a shape and its flat row-major buffer. -/
structure Tensor where
  shape : Shape
  data : List Q
deriving Repr, DecidableEq

/-- Position of a multi-index in an index enumeration (first occurrence). -/
def idxPos (l : List (List Nat)) (idx : List Nat) : Nat :=
  match l with
  | [] => 0
  | a :: as => if a = idx then 0 else idxPos as idx + 1

/-- Element lookup at a multi-index (0 outside the valid range, which the
    well-formed operations never hit). -/
def Tensor.get (t : Tensor) (idx : List Nat) : Q :=
  t.data.getD (idxPos (indicesOf t.shape) idx) 0

/-- Build a tensor of shape `s` whose buffer lists `f` over the row-major
    index enumeration; this is how every output-filling loop is embedded. -/
def Tensor.ofFn (s : Shape) (f : List Nat → Q) : Tensor :=
  ⟨s, (indicesOf s).map f⟩

/-- `Tensor::zeros`, the zero-filled tensor of a shape. -/
def Tensor.zeros (s : Shape) : Tensor :=
  Tensor.ofFn s fun _ => 0

@[simp] theorem Tensor.shape_ofFn (s : Shape) (f : List Nat → Q) :
    (Tensor.ofFn s f).shape = s := rfl

@[simp] theorem Tensor.shape_zeros (s : Shape) : (Tensor.zeros s).shape = s := rfl

theorem getD_map_idxPos {l : List (List Nat)} {idx : List Nat} (h : idx ∈ l)
    (f : List Nat → Q) : (l.map f).getD (idxPos l idx) 0 = f idx := by
  induction l with
  | nil => cases h
  | cons a as ih =>
    by_cases ha : a = idx
    · subst ha; simp [idxPos]
    · have h' : idx ∈ as := by
        rcases List.mem_cons.mp h with h | h
        · exact absurd h.symm ha
        · exact h
      simp only [idxPos]
      rw [if_neg ha, List.map_cons, List.getD_cons_succ]
      exact ih h'

theorem Tensor.get_ofFn {s : Shape} {idx : List Nat} (h : idx ∈ indicesOf s)
    (f : List Nat → Q) : (Tensor.ofFn s f).get idx = f idx :=
  getD_map_idxPos h f

/-- Membership in the index enumeration is pointwise boundedness. -/
theorem mem_indicesOf {idx : List Nat} {s : Shape} :
    idx ∈ indicesOf s ↔ List.Forall₂ (· < ·) idx s := by
  induction s generalizing idx with
  | nil =>
    cases idx <;> simp [indicesOf]
  | cons n s ih =>
    cases idx with
    | nil =>
      simp only [indicesOf, List.mem_flatMap, List.mem_map, List.mem_range]
      constructor
      · rintro ⟨i, -, j, -, h⟩; exact absurd h (by simp)
      · intro h; exact absurd h (by rintro ⟨⟩)
    | cons i idx =>
      simp only [indicesOf, List.mem_flatMap, List.mem_map, List.mem_range,
        List.forall₂_cons]
      constructor
      · rintro ⟨i', hi', j, hj, heq⟩
        injection heq with h1 h2
        subst h1; subst h2
        exact ⟨hi', ih.mp hj⟩
      · rintro ⟨hi, hrest⟩
        exact ⟨i, hi, idx, ih.mpr hrest, rfl⟩

/-! ### Broadcasting -/

/-- Combine two reversed shapes under the broadcasting rule: aligned from the
    trailing dimension, size-1 extents stretch, other mismatches fail. -/
def bcastRev : List Nat → List Nat → Option (List Nat)
  | [], ys => some ys
  | x :: xs, [] => some (x :: xs)
  | x :: xs, y :: ys =>
    match bcastRev xs ys with
    | none => none
    | some rest =>
      if x = y then some (x :: rest)
      else if x = 1 then some (y :: rest)
      else if y = 1 then some (x :: rest)
      else none

/-- The broadcast shape of two shapes (`none` on incompatibility):
    trailing-dimension alignment, size-1 dims stretch, mismatched non-1
    sizes are an error. -/
def broadcastShape (s t : Shape) : Option Shape :=
  (bcastRev s.reverse t.reverse).map List.reverse

/-- Map an index of a broadcast output down to the index of a source of
    shape `s`: extra leading axes are dropped, size-1 source axes pin to 0.
    This is the index map realized by ndarray broadcast views. -/
def bIdx (s : Shape) (idx : List Nat) : List Nat :=
  ((idx.drop (idx.length - s.length)).zip s).map fun p => if p.2 = 1 then 0 else p.1

/-- Read a tensor through a broadcast view at an output index. -/
def Tensor.bget (t : Tensor) (idx : List Nat) : Q :=
  t.get (bIdx t.shape idx)

/-! ### Gradient accumulator protocol

`AccState` stands for any node implementing the `Gradient` + `Overwrite`
capabilities as seen by a consumer pushing a contribution into it: an
optional gradient buffer, the declared shape fixed at construction, and
the overwrite flag. -/

structure AccState where
  gradient : Option Tensor
  shape : Shape
  overwrite : Bool
deriving Repr, DecidableEq

/-- Modelled from the spec: `expect_tensor`/`expect_tensor_mut` (defined in
    `variable/node/mod.rs`, which is not part of the sources at hand) give
    access to an optional gradient buffer and fail fast — a missing buffer
    is a fatal `MissingGradientBuffer` panic, never silently tolerated. -/
def expectTensor (g : Option Tensor) : Except String Tensor :=
  match g with
  | none => .error "MissingGradientBuffer"
  | some t => .ok t

/-- Modelled from the spec: the shared `push_gradient` routine (defined in
    `variable/node/mod.rs`, not among the sources at hand).  Given a reduced
    contribution of exactly the target's shape: when the target's overwrite
    flag is set, replace the target's buffer with the contribution and flip
    the flag to false; otherwise add the contribution elementwise into the
    existing buffer.  Accessing a missing buffer is a fatal panic. -/
def pushGradient (acc : AccState) (src : Tensor) : Except String AccState := do
  let g ← expectTensor acc.gradient
  if acc.overwrite then
    pure { acc with gradient := some src, overwrite := false }
  else
    pure { acc with gradient := some ⟨g.shape, g.data.zipWith (· + ·) src.data⟩ }

/-- Modelled from the spec: the broadcast-reduction routine `reduce` (defined
    in `variable/node/mod.rs`, not among the sources at hand).  A
    broadcast-shaped gradient contribution is collapsed to exactly the target
    shape by summing, at every target index, the source elements over all
    broadcast axes (size-1 in the target but larger in the source, and any
    extra leading axes the target lacks). -/
def reduce (target : Shape) (src : Tensor) : Tensor :=
  Tensor.ofFn target fun tIdx =>
    (((indicesOf src.shape).filter fun sIdx => bIdx target sIdx = tIdx).map src.get).sum

/-! ### Division (forward node)

Embeds `Division` from `variable/node/binary/arithmetic/division/mod.rs`:
two operand data handles, the cached output buffer, and the computed flag.
The operand handles are represented by the tensors they currently expose. -/

structure DivisionState where
  left : Tensor
  right : Tensor
  data : Tensor
  computed : Bool
deriving Repr, DecidableEq

namespace Division

/-- Modelled from the spec (`cobroadcasted_zeros` lives in
    `variable/node/mod.rs`, not among the sources at hand): a zero tensor of
    the operands' broadcast shape; construction fails with a fatal
    ShapeMismatch when the shapes are not broadcast-compatible. -/
def cobroadcastedZeros (l r : Tensor) : Option Tensor :=
  (broadcastShape l.shape r.shape).map Tensor.zeros

/-- `Division::new`: preallocates the output to the broadcast shape
    (zero-filled) with the computed flag clear; shape incompatibility is a
    construction-time failure. -/
def new (l r : Tensor) : Option DivisionState :=
  (cobroadcastedZeros l r).map fun d => ⟨l, r, d, false⟩

def wasComputed (s : DivisionState) : Bool := s.computed

def resetComputation (s : DivisionState) : DivisionState :=
  { s with computed := false }

/-- `Division::forward`: a no-op when already computed; otherwise marks
    computed and fills every output element with
    `left / right` read through broadcast views. -/
def forward (s : DivisionState) : DivisionState :=
  if s.computed then s
  else
    { s with
      computed := true
      data := Tensor.ofFn s.data.shape fun idx => s.left.bget idx / s.right.bget idx }

end Division

/-! ### DivisionBackward (both operands differentiable) -/

structure DivisionBackwardState where
  gradient : Option Tensor
  shape : Shape
  overwrite : Bool
  buffer : Option Tensor
  leftData : Tensor
  rightData : Tensor
  leftGrad : AccState
  rightGrad : AccState
deriving Repr, DecidableEq

namespace DivisionBackward

/-- The `Gradient::gradient`/`gradient_mut` accessor: `expect_tensor` on the
    optional buffer. -/
def gradientAccess (s : DivisionBackwardState) : Except String Tensor :=
  expectTensor s.gradient

def canOverwrite (s : DivisionBackwardState) : Bool := s.overwrite

/-- `DivisionBackward::backward`: fills the scratch buffer with
    `gradient / right` (broadcast view of the right data), reduces it to the
    left accumulator's shape and pushes it; then refills the buffer with
    `-gradient * left / right^2` and pushes its reduction into the right
    accumulator — both contributions inside the one call. -/
def backward (s : DivisionBackwardState) : Except String DivisionBackwardState := do
  let g ← expectTensor s.gradient
  let buf ← expectTensor s.buffer
  let buf1 := Tensor.ofFn buf.shape fun idx => g.get idx / s.rightData.bget idx
  let lg ← expectTensor s.leftGrad.gradient
  let left' ← pushGradient s.leftGrad (reduce lg.shape buf1)
  let buf2 := Tensor.ofFn buf.shape fun idx =>
    (-(g.get idx)) * s.leftData.bget idx / (s.rightData.bget idx) ^ 2
  let rg ← expectTensor s.rightGrad.gradient
  let right' ← pushGradient s.rightGrad (reduce rg.shape buf2)
  pure { s with buffer := some buf2, leftGrad := left', rightGrad := right' }

def noGrad (s : DivisionBackwardState) : DivisionBackwardState :=
  { s with gradient := none }

def withGrad (s : DivisionBackwardState) : DivisionBackwardState :=
  { s with gradient := some (Tensor.zeros s.shape) }

end DivisionBackward

/-! ### DivisionBackwardLeft (only the left operand differentiable) -/

structure DivisionBackwardLeftState where
  gradient : Option Tensor
  shape : Shape
  overwrite : Bool
  buffer : Option Tensor
  rightData : Tensor
  leftGrad : AccState
deriving Repr, DecidableEq

namespace DivisionBackwardLeft

def gradientAccess (s : DivisionBackwardLeftState) : Except String Tensor :=
  expectTensor s.gradient

/-- `DivisionBackwardLeft::backward`: pushes the reduction of
    `gradient / right` into the left accumulator. -/
def backward (s : DivisionBackwardLeftState) :
    Except String DivisionBackwardLeftState := do
  let g ← expectTensor s.gradient
  let buf ← expectTensor s.buffer
  let buf1 := Tensor.ofFn buf.shape fun idx => g.get idx / s.rightData.bget idx
  let lg ← expectTensor s.leftGrad.gradient
  let left' ← pushGradient s.leftGrad (reduce lg.shape buf1)
  pure { s with buffer := some buf1, leftGrad := left' }

def noGrad (s : DivisionBackwardLeftState) : DivisionBackwardLeftState :=
  { s with gradient := none }

def withGrad (s : DivisionBackwardLeftState) : DivisionBackwardLeftState :=
  { s with gradient := some (Tensor.zeros s.shape) }

end DivisionBackwardLeft

/-! ### DivisionBackwardRight (only the right operand differentiable) -/

structure DivisionBackwardRightState where
  gradient : Option Tensor
  shape : Shape
  overwrite : Bool
  buffer : Option Tensor
  leftData : Tensor
  rightData : Tensor
  rightGrad : AccState
deriving Repr, DecidableEq

namespace DivisionBackwardRight

def gradientAccess (s : DivisionBackwardRightState) : Except String Tensor :=
  expectTensor s.gradient

/-- `DivisionBackwardRight::backward`: pushes the reduction of
    `-gradient * left / right^2` into the right accumulator. -/
def backward (s : DivisionBackwardRightState) :
    Except String DivisionBackwardRightState := do
  let g ← expectTensor s.gradient
  let buf ← expectTensor s.buffer
  let buf2 := Tensor.ofFn buf.shape fun idx =>
    (-(g.get idx)) * s.leftData.bget idx / (s.rightData.bget idx) ^ 2
  let rg ← expectTensor s.rightGrad.gradient
  let right' ← pushGradient s.rightGrad (reduce rg.shape buf2)
  pure { s with buffer := some buf2, rightGrad := right' }

def noGrad (s : DivisionBackwardRightState) : DivisionBackwardRightState :=
  { s with gradient := none }

def withGrad (s : DivisionBackwardRightState) : DivisionBackwardRightState :=
  { s with gradient := some (Tensor.zeros s.shape) }

end DivisionBackwardRight

/-! ### MultiConcatenate (forward node)

Embeds `MultiConcatenate` from `variable/node/nary/multi_concatenate/mod.rs`:
an ordered operand list, the concatenation axis, the cached output buffer
and the computed flag. -/

structure MultiConcatenateState where
  operands : List Tensor
  axis : Nat
  data : Tensor
  computed : Bool
deriving Repr, DecidableEq

/-- One iteration of the forward loop: copy `op` into the axis-aligned slice
    `offset .. offset + extent` of the accumulating output.  The written
    region is exactly that slice; all other elements keep their value. -/
def writeSlice (a offset : Nat) (op : Tensor) (acc : Tensor) : Tensor :=
  Tensor.ofFn acc.shape fun idx =>
    if offset ≤ idx.getD a 0 ∧ idx.getD a 0 < offset + op.shape.getD a 0 then
      op.get (idx.set a (idx.getD a 0 - offset))
    else acc.get idx

/-- The forward loop of `MultiConcatenate::forward`: for each operand in
    order, copy it into the next axis-aligned slice and advance the offset
    by the operand's extent along the axis. -/
def concatWrite (a : Nat) : List Tensor → Nat → Tensor → Tensor
  | [], _, acc => acc
  | op :: ops, offset, acc =>
    concatWrite a ops (offset + op.shape.getD a 0) (writeSlice a offset op acc)

namespace MultiConcatenate

/-- Modelled from the spec: the construction-time concatenation shape rule
    (validated by the node's caller, outside the sources at hand): all
    operands share the rank and every extent except along `axis`, and the
    output extent along `axis` is the sum of the operand extents; any
    violation is a fatal ShapeMismatch. -/
def concatShape : List Shape → Nat → Option Shape
  | [], _ => none
  | s :: rest, a =>
    if a < s.length ∧ rest.all fun t => t.set a 0 = s.set a 0 then
      some (s.set a (((s :: rest).map fun t => t.getD a 0).sum))
    else none

/-- `MultiConcatenate::new` plus the caller-side shape validation: the
    output buffer has the concatenated shape; incompatible operand shapes
    fail at construction, before any forward or backward call. -/
def new (operands : List Tensor) (a : Nat) : Option MultiConcatenateState :=
  (concatShape (operands.map Tensor.shape) a).map fun out =>
    ⟨operands, a, Tensor.zeros out, false⟩

def wasComputed (s : MultiConcatenateState) : Bool := s.computed

def resetComputation (s : MultiConcatenateState) : MultiConcatenateState :=
  { s with computed := false }

/-- `MultiConcatenate::forward`: a no-op when already computed; otherwise
    marks computed and copies each operand into its disjoint axis-aligned
    slice, advancing the offset in operand order. -/
def forward (s : MultiConcatenateState) : MultiConcatenateState :=
  if s.computed then s
  else
    { s with
      computed := true
      data := concatWrite s.axis s.operands 0 s.data }

end MultiConcatenate

/-! ### MultiConcatenateBackward -/

structure MultiConcatenateBackwardState where
  gradient : Option Tensor
  shape : Shape
  overwrite : Bool
  operands : List AccState
  axis : Nat
deriving Repr, DecidableEq

/-- An axis-aligned slice `offset .. offset + len` of a tensor (the
    `slice_axis` view taken by the backward pass). -/
def sliceAxis (g : Tensor) (a offset len : Nat) : Tensor :=
  Tensor.ofFn (g.shape.set a len) fun idx =>
    g.get (idx.set a (idx.getD a 0 + offset))

namespace MultiConcatenateBackward

def gradientAccess (s : MultiConcatenateBackwardState) : Except String Tensor :=
  expectTensor s.gradient

/-- The per-operand loop of `MultiConcatenateBackward::backward`: for each
    operand accumulator in order, read its gradient extent along the axis
    (a fatal panic when that operand's buffer is missing), unwrap this
    node's own gradient (a fatal panic when missing), and push the matching
    axis-aligned slice, advancing the offset.  With no operands the loop
    body never runs, so neither unwrap is reached. -/
def backwardLoop (a : Nat) (g : Option Tensor) :
    List AccState → Nat → Except String (List AccState)
  | [], _ => pure []
  | acc :: rest, offset => do
    let ag ← expectTensor acc.gradient
    let len := ag.shape.getD a 0
    let gr ← expectTensor g
    let acc' ← pushGradient acc (sliceAxis gr a offset len)
    let rest' ← backwardLoop a g rest (offset + len)
    pure (acc' :: rest')

/-- `MultiConcatenateBackward::backward`: re-derives the forward partition
    from each operand's gradient extent along the axis and pushes the
    corresponding slice of its own gradient into each operand. -/
def backward (s : MultiConcatenateBackwardState) :
    Except String MultiConcatenateBackwardState := do
  let ops' ← backwardLoop s.axis s.gradient s.operands 0
  pure { s with operands := ops' }

def noGrad (s : MultiConcatenateBackwardState) : MultiConcatenateBackwardState :=
  { s with gradient := none }

def withGrad (s : MultiConcatenateBackwardState) : MultiConcatenateBackwardState :=
  { s with gradient := some (Tensor.zeros s.shape) }

end MultiConcatenateBackward

/-! ### Unsqueeze -/

structure UnsqueezeState where
  operand : Tensor
  data : Tensor
  axis : Nat
  computed : Bool
deriving Repr, DecidableEq

namespace Unsqueeze

/-- `Unsqueeze::new`: the output buffer is zero-filled with a size-1 axis
    inserted at `axis` into the operand's shape. -/
def new (operand : Tensor) (a : Nat) : UnsqueezeState :=
  ⟨operand, Tensor.zeros (operand.shape.insertIdx a 1), a, false⟩

def wasComputed (s : UnsqueezeState) : Bool := s.computed

def resetComputation (s : UnsqueezeState) : UnsqueezeState :=
  { s with computed := false }

/-- `Unsqueeze::forward`: a no-op when already computed; otherwise marks
    computed and copies the operand's data into the single subview at
    index 0 of the inserted axis. -/
def forward (s : UnsqueezeState) : UnsqueezeState :=
  if s.computed then s
  else
    { s with
      computed := true
      data := Tensor.ofFn s.data.shape fun idx =>
        if idx.getD s.axis 0 = 0 then s.operand.get (idx.eraseIdx s.axis)
        else s.data.get idx }

end Unsqueeze

/-- The subview of a tensor at index 0 of axis `a`, with that axis removed
    (the `axis_iter(..).next()` view taken by unsqueeze's backward pass). -/
def squeezeView (t : Tensor) (a : Nat) : Tensor :=
  Tensor.ofFn (t.shape.eraseIdx a) fun idx => t.get (idx.insertIdx a 0)

structure UnsqueezeBackwardState where
  gradient : Option Tensor
  shape : Shape
  overwrite : Bool
  operand : AccState
  axis : Nat
deriving Repr, DecidableEq

namespace UnsqueezeBackward

def gradientAccess (s : UnsqueezeBackwardState) : Except String Tensor :=
  expectTensor s.gradient

/-- `UnsqueezeBackward::backward`: pushes its own gradient viewed with the
    inserted axis removed into the operand's accumulator. -/
def backward (s : UnsqueezeBackwardState) : Except String UnsqueezeBackwardState := do
  let g ← expectTensor s.gradient
  let op' ← pushGradient s.operand (squeezeView g s.axis)
  pure { s with operand := op' }

def noGrad (s : UnsqueezeBackwardState) : UnsqueezeBackwardState :=
  { s with gradient := none }

def withGrad (s : UnsqueezeBackwardState) : UnsqueezeBackwardState :=
  { s with gradient := some (Tensor.zeros s.shape) }

end UnsqueezeBackward

/-! ### Learning-rate scheduler -/

/-- The per-scheduler state from `optim/lr_scheduler/mod.rs`: the last and
    current learning rates and the epoch counter (the rate `f32` is modelled
    by `Q`). -/
structure SchedulerState where
  last_lr : Q
  current_lr : Q
  current_epoch : Nat
deriving Repr, DecidableEq

/-- `prepare_step`: snapshot the current rate into `last_lr` and increment
    the epoch counter. -/
def prepareStep (s : SchedulerState) : SchedulerState :=
  { s with last_lr := s.current_lr, current_epoch := s.current_epoch + 1 }

/-- `set_current_epoch`: the explicit epoch reset. -/
def setCurrentEpoch (s : SchedulerState) (e : Nat) : SchedulerState :=
  { s with current_epoch := e }

/-- Modelled from the spec: a scheduler's `step()` (the concrete scheduler
    files are not among the sources at hand) runs `prepare_step` and then
    computes the new rate as a pure function of the epoch counter and the
    last/current rates, writing it into `current_lr`. -/
def schedulerStep (f : Nat → Q → Q → Q) (s : SchedulerState) : SchedulerState :=
  let s' := prepareStep s
  { s' with current_lr := f s'.current_epoch s'.last_lr s'.current_lr }

/-! ### General helper lemmas -/

theorem bindOk {α β : Type} {x : Except String α} {f : α → Except String β} {b : β} :
    (x >>= f) = .ok b ↔ ∃ a, x = .ok a ∧ f a = .ok b := by
  cases x <;> simp [Bind.bind, Except.bind]

@[simp] theorem expectTensor_none : expectTensor none = .error "MissingGradientBuffer" := rfl

@[simp] theorem expectTensor_some (t : Tensor) : expectTensor (some t) = .ok t := rfl

/-! ### Claim theorems -/

/-- Claim C9: `prepare_step` sets `last_lr` to the entry value of
    `current_lr`, increments `current_epoch` by exactly 1 and leaves
    `current_lr` unchanged; hence the epoch counter strictly increases under
    any scheduler `step()`, and only `set_current_epoch` can lower it. -/
theorem claim9_prepare_step (s : SchedulerState) :
    (prepareStep s).last_lr = s.current_lr ∧
    (prepareStep s).current_epoch = s.current_epoch + 1 ∧
    (prepareStep s).current_lr = s.current_lr ∧
    (∀ f, (schedulerStep f s).current_epoch = s.current_epoch + 1 ∧
      s.current_epoch < (schedulerStep f s).current_epoch) ∧
    (∀ e, (setCurrentEpoch s e).current_epoch = e) := by
  refine ⟨rfl, rfl, rfl, fun f => ⟨rfl, ?_⟩, fun e => rfl⟩
  simp [schedulerStep, prepareStep]

/-- Claim C8: for every backward node type, `no_grad()` is idempotent
    (once or twice, the buffer is absent) and `with_grad()` after
    `no_grad()` reallocates the buffer as a zero tensor of exactly the
    node's declared shape fixed at construction. -/
theorem claim8_no_grad_with_grad :
    (∀ s : DivisionBackwardState,
      DivisionBackward.noGrad (DivisionBackward.noGrad s) = DivisionBackward.noGrad s ∧
      (DivisionBackward.noGrad s).gradient = none ∧
      (DivisionBackward.withGrad (DivisionBackward.noGrad s)).gradient
        = some (Tensor.zeros s.shape)) ∧
    (∀ s : DivisionBackwardLeftState,
      DivisionBackwardLeft.noGrad (DivisionBackwardLeft.noGrad s)
        = DivisionBackwardLeft.noGrad s ∧
      (DivisionBackwardLeft.noGrad s).gradient = none ∧
      (DivisionBackwardLeft.withGrad (DivisionBackwardLeft.noGrad s)).gradient
        = some (Tensor.zeros s.shape)) ∧
    (∀ s : DivisionBackwardRightState,
      DivisionBackwardRight.noGrad (DivisionBackwardRight.noGrad s)
        = DivisionBackwardRight.noGrad s ∧
      (DivisionBackwardRight.noGrad s).gradient = none ∧
      (DivisionBackwardRight.withGrad (DivisionBackwardRight.noGrad s)).gradient
        = some (Tensor.zeros s.shape)) ∧
    (∀ s : MultiConcatenateBackwardState,
      MultiConcatenateBackward.noGrad (MultiConcatenateBackward.noGrad s)
        = MultiConcatenateBackward.noGrad s ∧
      (MultiConcatenateBackward.noGrad s).gradient = none ∧
      (MultiConcatenateBackward.withGrad (MultiConcatenateBackward.noGrad s)).gradient
        = some (Tensor.zeros s.shape)) ∧
    (∀ s : UnsqueezeBackwardState,
      UnsqueezeBackward.noGrad (UnsqueezeBackward.noGrad s)
        = UnsqueezeBackward.noGrad s ∧
      (UnsqueezeBackward.noGrad s).gradient = none ∧
      (UnsqueezeBackward.withGrad (UnsqueezeBackward.noGrad s)).gradient
        = some (Tensor.zeros s.shape)) := by
  refine ⟨fun s => ⟨rfl, rfl, rfl⟩, fun s => ⟨rfl, rfl, rfl⟩, fun s => ⟨rfl, rfl, rfl⟩,
    fun s => ⟨rfl, rfl, rfl⟩, fun s => ⟨rfl, rfl, rfl⟩⟩

/-- Claim C3: for every forward node (Division, MultiConcatenate,
    Unsqueeze), a second `forward()` without an intervening
    `reset_computation()` is a no-op — the cached value is unchanged and
    nothing is recomputed, even when the operands' data changed in between;
    `was_computed()` is true after any `forward()` and false again only
    after `reset_computation()`. -/
theorem claim3_forward_memoization :
    (∀ s : DivisionState,
      Division.forward (Division.forward s) = Division.forward s ∧
      Division.wasComputed (Division.forward s) = true ∧
      (∀ l r, Division.forward { Division.forward s with left := l, right := r }
        = { Division.forward s with left := l, right := r } ∧
        (Division.forward { Division.forward s with left := l, right := r }).data
          = (Division.forward s).data) ∧
      Division.wasComputed (Division.resetComputation (Division.forward s)) = false) ∧
    (∀ s : MultiConcatenateState,
      MultiConcatenate.forward (MultiConcatenate.forward s) = MultiConcatenate.forward s ∧
      MultiConcatenate.wasComputed (MultiConcatenate.forward s) = true ∧
      (∀ ops, MultiConcatenate.forward { MultiConcatenate.forward s with operands := ops }
        = { MultiConcatenate.forward s with operands := ops } ∧
        (MultiConcatenate.forward
          { MultiConcatenate.forward s with operands := ops }).data
          = (MultiConcatenate.forward s).data) ∧
      MultiConcatenate.wasComputed
        (MultiConcatenate.resetComputation (MultiConcatenate.forward s)) = false) ∧
    (∀ s : UnsqueezeState,
      Unsqueeze.forward (Unsqueeze.forward s) = Unsqueeze.forward s ∧
      Unsqueeze.wasComputed (Unsqueeze.forward s) = true ∧
      (∀ t, Unsqueeze.forward { Unsqueeze.forward s with operand := t }
        = { Unsqueeze.forward s with operand := t } ∧
        (Unsqueeze.forward { Unsqueeze.forward s with operand := t }).data
          = (Unsqueeze.forward s).data) ∧
      Unsqueeze.wasComputed (Unsqueeze.resetComputation (Unsqueeze.forward s)) = false) := by
  refine ⟨fun s => ?_, fun s => ?_, fun s => ?_⟩ <;>
    cases hc : s.computed <;>
      simp [Division.forward, MultiConcatenate.forward, Unsqueeze.forward,
        Division.wasComputed, MultiConcatenate.wasComputed, Unsqueeze.wasComputed,
        Division.resetComputation, MultiConcatenate.resetComputation,
        Unsqueeze.resetComputation, hc]

/-! ### Concrete example states (division with left `[6.0]`, right `[2.0]`,
upstream gradient `[1.0]`; a `(2,3) ++ (2,2)` concatenation along axis 1;
a rank-1 unsqueeze) used to instantiate the claim theorems. -/

def exDB : DivisionBackwardState :=
  ⟨some ⟨[1], [1]⟩, [1], true, some ⟨[1], [0]⟩, ⟨[1], [6]⟩, ⟨[1], [2]⟩,
   ⟨some (Tensor.zeros [1]), [1], true⟩, ⟨some (Tensor.zeros [1]), [1], true⟩⟩

def exDBres : DivisionBackwardState :=
  ⟨some ⟨[1], [1]⟩, [1], true, some ⟨[1], [-(3 : Q)/2]⟩, ⟨[1], [6]⟩, ⟨[1], [2]⟩,
   ⟨some ⟨[1], [(1 : Q)/2]⟩, [1], false⟩, ⟨some ⟨[1], [-(3 : Q)/2]⟩, [1], false⟩⟩

def exDBL : DivisionBackwardLeftState :=
  ⟨some ⟨[1], [1]⟩, [1], true, some ⟨[1], [0]⟩, ⟨[1], [2]⟩,
   ⟨some (Tensor.zeros [1]), [1], true⟩⟩

def exDBLres : DivisionBackwardLeftState :=
  ⟨some ⟨[1], [1]⟩, [1], true, some ⟨[1], [(1 : Q)/2]⟩, ⟨[1], [2]⟩,
   ⟨some ⟨[1], [(1 : Q)/2]⟩, [1], false⟩⟩

def exDBR : DivisionBackwardRightState :=
  ⟨some ⟨[1], [1]⟩, [1], true, some ⟨[1], [0]⟩, ⟨[1], [6]⟩, ⟨[1], [2]⟩,
   ⟨some (Tensor.zeros [1]), [1], true⟩⟩

def exDBRres : DivisionBackwardRightState :=
  ⟨some ⟨[1], [1]⟩, [1], true, some ⟨[1], [-(3 : Q)/2]⟩, ⟨[1], [6]⟩, ⟨[1], [2]⟩,
   ⟨some ⟨[1], [-(3 : Q)/2]⟩, [1], false⟩⟩

def exMCB : MultiConcatenateBackwardState :=
  ⟨some ⟨[2, 5], [1, 2, 3, 10, 20, 4, 5, 6, 30, 40]⟩, [2, 5], true,
   [⟨some (Tensor.zeros [2, 3]), [2, 3], true⟩,
    ⟨some (Tensor.zeros [2, 2]), [2, 2], true⟩], 1⟩

def exMCBres : MultiConcatenateBackwardState :=
  ⟨some ⟨[2, 5], [1, 2, 3, 10, 20, 4, 5, 6, 30, 40]⟩, [2, 5], true,
   [⟨some ⟨[2, 3], [1, 2, 3, 4, 5, 6]⟩, [2, 3], false⟩,
    ⟨some ⟨[2, 2], [10, 20, 30, 40]⟩, [2, 2], false⟩], 1⟩

def exUB : UnsqueezeBackwardState :=
  ⟨some ⟨[1, 2], [7, 8]⟩, [1, 2], true, ⟨some (Tensor.zeros [2]), [2], true⟩, 0⟩

def exUBres : UnsqueezeBackwardState :=
  ⟨some ⟨[1, 2], [7, 8]⟩, [1, 2], true, ⟨some ⟨[2], [7, 8]⟩, [2], false⟩, 0⟩

/-- Claim C5: `backward()` never mutates the node's own gradient buffer —
    whenever a `backward()` call completes, the node's gradient is identical
    to what it was before, for every backward node type (only the operands'
    accumulators and, for division, the private scratch buffer change). -/
theorem claim5_backward_preserves_own_gradient :
    (∀ s s' : DivisionBackwardState,
      DivisionBackward.backward s = .ok s' → s'.gradient = s.gradient) ∧
    (∀ s s' : DivisionBackwardLeftState,
      DivisionBackwardLeft.backward s = .ok s' → s'.gradient = s.gradient) ∧
    (∀ s s' : DivisionBackwardRightState,
      DivisionBackwardRight.backward s = .ok s' → s'.gradient = s.gradient) ∧
    (∀ s s' : MultiConcatenateBackwardState,
      MultiConcatenateBackward.backward s = .ok s' → s'.gradient = s.gradient) ∧
    (∀ s s' : UnsqueezeBackwardState,
      UnsqueezeBackward.backward s = .ok s' → s'.gradient = s.gradient) := by
  refine ⟨fun s s' h => ?_, fun s s' h => ?_, fun s s' h => ?_,
    fun s s' h => ?_, fun s s' h => ?_⟩
  · unfold DivisionBackward.backward at h
    rw [bindOk] at h; obtain ⟨g, -, h⟩ := h
    rw [bindOk] at h; obtain ⟨buf, -, h⟩ := h
    rw [bindOk] at h; obtain ⟨lg, -, h⟩ := h
    rw [bindOk] at h; obtain ⟨l', -, h⟩ := h
    rw [bindOk] at h; obtain ⟨rg, -, h⟩ := h
    rw [bindOk] at h; obtain ⟨r', -, h⟩ := h
    simp only [pure, Except.pure, Except.ok.injEq] at h
    rw [← h]
  · unfold DivisionBackwardLeft.backward at h
    rw [bindOk] at h; obtain ⟨g, -, h⟩ := h
    rw [bindOk] at h; obtain ⟨buf, -, h⟩ := h
    rw [bindOk] at h; obtain ⟨lg, -, h⟩ := h
    rw [bindOk] at h; obtain ⟨l', -, h⟩ := h
    simp only [pure, Except.pure, Except.ok.injEq] at h
    rw [← h]
  · unfold DivisionBackwardRight.backward at h
    rw [bindOk] at h; obtain ⟨g, -, h⟩ := h
    rw [bindOk] at h; obtain ⟨buf, -, h⟩ := h
    rw [bindOk] at h; obtain ⟨rg, -, h⟩ := h
    rw [bindOk] at h; obtain ⟨r', -, h⟩ := h
    simp only [pure, Except.pure, Except.ok.injEq] at h
    rw [← h]
  · unfold MultiConcatenateBackward.backward at h
    rw [bindOk] at h; obtain ⟨ops', -, h⟩ := h
    simp only [pure, Except.pure, Except.ok.injEq] at h
    rw [← h]
  · unfold UnsqueezeBackward.backward at h
    rw [bindOk] at h; obtain ⟨g, -, h⟩ := h
    rw [bindOk] at h; obtain ⟨op', -, h⟩ := h
    simp only [pure, Except.pure, Except.ok.injEq] at h
    rw [← h]

/-- Witness for C5 at concrete inputs of each backward node type. -/
theorem claim5_witness :
    (DivisionBackward.backward exDB = .ok exDBres ∧ exDBres.gradient = exDB.gradient) ∧
    (DivisionBackwardLeft.backward exDBL = .ok exDBLres ∧
      exDBLres.gradient = exDBL.gradient) ∧
    (DivisionBackwardRight.backward exDBR = .ok exDBRres ∧
      exDBRres.gradient = exDBR.gradient) ∧
    (MultiConcatenateBackward.backward exMCB = .ok exMCBres ∧
      exMCBres.gradient = exMCB.gradient) ∧
    (UnsqueezeBackward.backward exUB = .ok exUBres ∧ exUBres.gradient = exUB.gradient) :=
  ⟨⟨by rfl, claim5_backward_preserves_own_gradient.1 exDB exDBres (by rfl)⟩,
   ⟨by rfl, claim5_backward_preserves_own_gradient.2.1 exDBL exDBLres (by rfl)⟩,
   ⟨by rfl, claim5_backward_preserves_own_gradient.2.2.1 exDBR exDBRres (by rfl)⟩,
   ⟨by rfl, claim5_backward_preserves_own_gradient.2.2.2.1 exMCB exMCBres (by rfl)⟩,
   ⟨by rfl, claim5_backward_preserves_own_gradient.2.2.2.2 exUB exUBres (by rfl)⟩⟩

theorem expectOk {g : Option Tensor} {t : Tensor} :
    expectTensor g = .ok t ↔ g = some t := by
  cases g <;> simp [expectTensor]

/-- Claim C1: the gradient accumulation/broadcast-reduction routine reduces
    a broadcast-shaped contribution to a buffer of exactly the target shape
    by summing over every broadcast axis (size-1 axes and extra leading
    axes); the first push into a target with the overwrite flag set replaces
    its buffer and flips the flag, and every subsequent push adds
    elementwise — concretely, target buffer `[5]` with overwrite=true,
    pushing `[2]` gives `[2]` with overwrite=false, then pushing `[3]`
    gives `[5]`. -/
theorem claim1_reduce_and_push :
    (∀ (target : Shape) (src : Tensor), (reduce target src).shape = target) ∧
    (∀ (acc : AccState) (src g : Tensor), acc.gradient = some g →
      (acc.overwrite = true →
        pushGradient acc src = .ok ⟨some src, acc.shape, false⟩) ∧
      (acc.overwrite = false →
        pushGradient acc src
          = .ok ⟨some ⟨g.shape, g.data.zipWith (· + ·) src.data⟩, acc.shape, false⟩)) ∧
    reduce [1, 4] ⟨[3, 4], List.replicate 12 1⟩ = ⟨[1, 4], List.replicate 4 3⟩ ∧
    reduce [3, 1] ⟨[3, 4], List.replicate 12 1⟩ = ⟨[3, 1], List.replicate 3 4⟩ ∧
    reduce [4] ⟨[3, 4], List.replicate 12 1⟩ = ⟨[4], List.replicate 4 3⟩ ∧
    pushGradient ⟨some ⟨[1], [5]⟩, [1], true⟩ ⟨[1], [2]⟩
      = .ok ⟨some ⟨[1], [2]⟩, [1], false⟩ ∧
    pushGradient ⟨some ⟨[1], [2]⟩, [1], false⟩ ⟨[1], [3]⟩
      = .ok ⟨some ⟨[1], [5]⟩, [1], false⟩ := by
  refine ⟨fun target src => rfl, fun acc src g hg => ⟨fun hov => ?_, fun hov => ?_⟩,
    rfl, rfl, rfl, rfl, rfl⟩ <;>
    simp [pushGradient, hg, hov, expectTensor, Bind.bind, Except.bind, pure, Except.pure]

/-- Witness for C1: the overwrite and accumulate branches of the push at
    concrete accumulators. -/
theorem claim1_witness :
    ((⟨some ⟨[1], [5]⟩, [1], true⟩ : AccState).gradient = some ⟨[1], [5]⟩ ∧
      (⟨some ⟨[1], [5]⟩, [1], true⟩ : AccState).overwrite = true ∧
      pushGradient ⟨some ⟨[1], [5]⟩, [1], true⟩ ⟨[1], [2]⟩
        = .ok ⟨some ⟨[1], [2]⟩, [1], false⟩) ∧
    ((⟨some ⟨[1], [2]⟩, [1], false⟩ : AccState).gradient = some ⟨[1], [2]⟩ ∧
      (⟨some ⟨[1], [2]⟩, [1], false⟩ : AccState).overwrite = false ∧
      pushGradient ⟨some ⟨[1], [2]⟩, [1], false⟩ ⟨[1], [3]⟩
        = .ok ⟨some ⟨[1], [5]⟩, [1], false⟩) :=
  ⟨⟨rfl, rfl, (claim1_reduce_and_push.2.1 ⟨some ⟨[1], [5]⟩, [1], true⟩ ⟨[1], [2]⟩
      ⟨[1], [5]⟩ rfl).1 rfl⟩,
   ⟨rfl, rfl, by
      have h := (claim1_reduce_and_push.2.1 ⟨some ⟨[1], [2]⟩, [1], false⟩ ⟨[1], [3]⟩
        ⟨[1], [2]⟩ rfl).2 rfl
      exact h.trans (by rfl)⟩⟩

/-- Claim C2: whenever a division backward node's gradient buffer is
    present and `backward()` completes, it pushes the broadcast-reduction of
    `upstream / right` into the left accumulator and of
    `-upstream * left / right^2` into the right accumulator — both within
    the single call for the both-differentiable node, and the matching
    single contribution for the left-only / right-only variants; for
    left=[6], right=[2], upstream=[1] the contributions are [1/2]
    and [-3/2]. -/
theorem claim2_division_backward_formulas :
    (∀ s s' : DivisionBackwardState, DivisionBackward.backward s = .ok s' →
      ∃ g buf lg rg, s.gradient = some g ∧ s.buffer = some buf ∧
        s.leftGrad.gradient = some lg ∧ s.rightGrad.gradient = some rg ∧
        pushGradient s.leftGrad
          (reduce lg.shape
            (Tensor.ofFn buf.shape fun idx => g.get idx / s.rightData.bget idx))
          = .ok s'.leftGrad ∧
        pushGradient s.rightGrad
          (reduce rg.shape
            (Tensor.ofFn buf.shape fun idx =>
              (-(g.get idx)) * s.leftData.bget idx / (s.rightData.bget idx) ^ 2))
          = .ok s'.rightGrad) ∧
    (∀ s s' : DivisionBackwardLeftState, DivisionBackwardLeft.backward s = .ok s' →
      ∃ g buf lg, s.gradient = some g ∧ s.buffer = some buf ∧
        s.leftGrad.gradient = some lg ∧
        pushGradient s.leftGrad
          (reduce lg.shape
            (Tensor.ofFn buf.shape fun idx => g.get idx / s.rightData.bget idx))
          = .ok s'.leftGrad) ∧
    (∀ s s' : DivisionBackwardRightState, DivisionBackwardRight.backward s = .ok s' →
      ∃ g buf rg, s.gradient = some g ∧ s.buffer = some buf ∧
        s.rightGrad.gradient = some rg ∧
        pushGradient s.rightGrad
          (reduce rg.shape
            (Tensor.ofFn buf.shape fun idx =>
              (-(g.get idx)) * s.leftData.bget idx / (s.rightData.bget idx) ^ 2))
          = .ok s'.rightGrad) ∧
    (DivisionBackward.backward exDB = .ok exDBres ∧
      exDBres.leftGrad.gradient = some ⟨[1], [(1 : Q) / 2]⟩ ∧
      exDBres.rightGrad.gradient = some ⟨[1], [-((3 : Q) / 2)]⟩) := by
  refine ⟨fun s s' h => ?_, fun s s' h => ?_, fun s s' h => ?_, by rfl, rfl, rfl⟩
  · unfold DivisionBackward.backward at h
    rw [bindOk] at h; obtain ⟨g, hg, h⟩ := h
    rw [bindOk] at h; obtain ⟨buf, hbuf, h⟩ := h
    rw [bindOk] at h; obtain ⟨lg, hlg, h⟩ := h
    rw [bindOk] at h; obtain ⟨l', hl, h⟩ := h
    rw [bindOk] at h; obtain ⟨rg, hrg, h⟩ := h
    rw [bindOk] at h; obtain ⟨r', hr, h⟩ := h
    simp only [pure, Except.pure, Except.ok.injEq] at h
    refine ⟨g, buf, lg, rg, expectOk.mp hg, expectOk.mp hbuf,
      expectOk.mp hlg, expectOk.mp hrg, ?_, ?_⟩
    · rw [← h]; exact hl
    · rw [← h]; exact hr
  · unfold DivisionBackwardLeft.backward at h
    rw [bindOk] at h; obtain ⟨g, hg, h⟩ := h
    rw [bindOk] at h; obtain ⟨buf, hbuf, h⟩ := h
    rw [bindOk] at h; obtain ⟨lg, hlg, h⟩ := h
    rw [bindOk] at h; obtain ⟨l', hl, h⟩ := h
    simp only [pure, Except.pure, Except.ok.injEq] at h
    refine ⟨g, buf, lg, expectOk.mp hg, expectOk.mp hbuf, expectOk.mp hlg, ?_⟩
    rw [← h]; exact hl
  · unfold DivisionBackwardRight.backward at h
    rw [bindOk] at h; obtain ⟨g, hg, h⟩ := h
    rw [bindOk] at h; obtain ⟨buf, hbuf, h⟩ := h
    rw [bindOk] at h; obtain ⟨rg, hrg, h⟩ := h
    rw [bindOk] at h; obtain ⟨r', hr, h⟩ := h
    simp only [pure, Except.pure, Except.ok.injEq] at h
    refine ⟨g, buf, rg, expectOk.mp hg, expectOk.mp hbuf, expectOk.mp hrg, ?_⟩
    rw [← h]; exact hr

/-- Witness for C2: the general part instantiated at the concrete division
    example (left=[6], right=[2], upstream=[1]). -/
theorem claim2_witness :
    DivisionBackward.backward exDB = .ok exDBres ∧
    (∃ g buf lg rg, exDB.gradient = some g ∧ exDB.buffer = some buf ∧
      exDB.leftGrad.gradient = some lg ∧ exDB.rightGrad.gradient = some rg ∧
      pushGradient exDB.leftGrad
        (reduce lg.shape
          (Tensor.ofFn buf.shape fun idx => g.get idx / exDB.rightData.bget idx))
        = .ok exDBres.leftGrad ∧
      pushGradient exDB.rightGrad
        (reduce rg.shape
          (Tensor.ofFn buf.shape fun idx =>
            (-(g.get idx)) * exDB.leftData.bget idx / (exDB.rightData.bget idx) ^ 2))
        = .ok exDBres.rightGrad) :=
  ⟨by rfl, claim2_division_backward_formulas.1 exDB exDBres (by rfl)⟩

/-- A `MultiConcatenateBackward` node with no operands and a disabled
    gradient buffer: its backward loop body never runs, so the unwrap of the
    missing buffer is never reached. -/
def mcbEmptyNoGrad : MultiConcatenateBackwardState := ⟨none, [2], true, [], 0⟩

/-- Counterexample to C6 as stated: on a `MultiConcatenateBackward` node
    whose gradient buffer was disabled but whose operand list is empty,
    `backward()` completes as a silent no-op (returning the state unchanged)
    instead of panicking. -/
theorem claim6_counterexample :
    MultiConcatenateBackward.backward mcbEmptyNoGrad = .ok mcbEmptyNoGrad := rfl

/-- Claim C6 (amended): with the gradient buffer disabled via `no_grad()`
    and not re-enabled, `gradient()`/`gradient_mut()` panic with
    MissingGradientBuffer on every backward node type, and `backward()`
    panics as well — except on a `MultiConcatenateBackward` with an empty
    operand list, where `backward()` is a silent no-op because the unwrap
    sits inside the per-operand loop. -/
theorem claim6_missing_gradient_is_fatal :
    (∀ s : DivisionBackwardState, s.gradient = none →
      DivisionBackward.gradientAccess s = .error "MissingGradientBuffer" ∧
      DivisionBackward.backward s = .error "MissingGradientBuffer") ∧
    (∀ s : DivisionBackwardLeftState, s.gradient = none →
      DivisionBackwardLeft.gradientAccess s = .error "MissingGradientBuffer" ∧
      DivisionBackwardLeft.backward s = .error "MissingGradientBuffer") ∧
    (∀ s : DivisionBackwardRightState, s.gradient = none →
      DivisionBackwardRight.gradientAccess s = .error "MissingGradientBuffer" ∧
      DivisionBackwardRight.backward s = .error "MissingGradientBuffer") ∧
    (∀ s : UnsqueezeBackwardState, s.gradient = none →
      UnsqueezeBackward.gradientAccess s = .error "MissingGradientBuffer" ∧
      UnsqueezeBackward.backward s = .error "MissingGradientBuffer") ∧
    (∀ s : MultiConcatenateBackwardState, s.gradient = none →
      MultiConcatenateBackward.gradientAccess s = .error "MissingGradientBuffer" ∧
      (s.operands ≠ [] →
        MultiConcatenateBackward.backward s = .error "MissingGradientBuffer")) := by
  refine ⟨fun s hg => ⟨?_, ?_⟩, fun s hg => ⟨?_, ?_⟩, fun s hg => ⟨?_, ?_⟩,
    fun s hg => ⟨?_, ?_⟩, fun s hg => ⟨?_, fun hne => ?_⟩⟩ <;>
    try simp [DivisionBackward.gradientAccess, DivisionBackwardLeft.gradientAccess,
      DivisionBackwardRight.gradientAccess, UnsqueezeBackward.gradientAccess,
      MultiConcatenateBackward.gradientAccess, DivisionBackward.backward,
      DivisionBackwardLeft.backward, DivisionBackwardRight.backward,
      UnsqueezeBackward.backward, hg, expectTensor, Bind.bind, Except.bind]
  cases hops : s.operands with
  | nil => exact absurd hops hne
  | cons a rest =>
    cases ha : a.gradient <;>
      simp [MultiConcatenateBackward.backward, MultiConcatenateBackward.backwardLoop,
        hops, ha, hg, expectTensor, Bind.bind, Except.bind]

/-- Witness for C6 (amended) at concrete no-grad states of each node type. -/
theorem claim6_witness :
    ((DivisionBackward.noGrad exDB).gradient = none ∧
      DivisionBackward.backward (DivisionBackward.noGrad exDB)
        = .error "MissingGradientBuffer") ∧
    ((UnsqueezeBackward.noGrad exUB).gradient = none ∧
      (MultiConcatenateBackward.noGrad exMCB).operands ≠ [] ∧
      MultiConcatenateBackward.backward (MultiConcatenateBackward.noGrad exMCB)
        = .error "MissingGradientBuffer") :=
  ⟨⟨rfl, (claim6_missing_gradient_is_fatal.1 (DivisionBackward.noGrad exDB) rfl).2⟩,
   ⟨rfl, by decide,
    (claim6_missing_gradient_is_fatal.2.2.2.2 (MultiConcatenateBackward.noGrad exMCB)
      rfl).2 (by decide)⟩⟩

/-- Claim C7: operand shapes incompatible with the broadcasting rule
    (Division) or the concatenation rule (MultiConcatenate: same rank,
    identical extents except along the axis, output extent the sum) are
    rejected at node-construction time — no node value exists, so no
    `forward()`/`backward()` can ever run on it — and accepted shapes are
    used exactly, never coerced: the constructed buffer has precisely the
    declared broadcast/concatenated shape. -/
theorem claim7_construction_rejects_bad_shapes :
    (∀ l r : Tensor,
      (Division.new l r = none ↔ broadcastShape l.shape r.shape = none) ∧
      (∀ o, broadcastShape l.shape r.shape = some o →
        Division.new l r = some ⟨l, r, Tensor.zeros o, false⟩)) ∧
    (∀ (ops : List Tensor) (a : Nat),
      (MultiConcatenate.new ops a = none
        ↔ MultiConcatenate.concatShape (ops.map Tensor.shape) a = none) ∧
      (∀ o, MultiConcatenate.concatShape (ops.map Tensor.shape) a = some o →
        MultiConcatenate.new ops a = some ⟨ops, a, Tensor.zeros o, false⟩)) ∧
    Division.new ⟨[2, 3], List.replicate 6 0⟩ ⟨[4, 3], List.replicate 12 0⟩ = none ∧
    (Division.new ⟨[2, 3], List.replicate 6 0⟩ ⟨[3], List.replicate 3 0⟩).map
      (fun s => s.data.shape) = some [2, 3] ∧
    MultiConcatenate.new
      [⟨[2, 3], List.replicate 6 0⟩, ⟨[3, 3], List.replicate 9 0⟩] 1 = none ∧
    (MultiConcatenate.new
      [⟨[2, 3], List.replicate 6 0⟩, ⟨[2, 2], List.replicate 4 0⟩] 1).map
      (fun s => s.data.shape) = some [2, 5] := by
  refine ⟨fun l r => ⟨?_, fun o ho => ?_⟩, fun ops a => ⟨?_, fun o ho => ?_⟩,
    rfl, rfl, rfl, rfl⟩
  · unfold Division.new Division.cobroadcastedZeros
    cases h : broadcastShape l.shape r.shape <;> simp [h]
  · unfold Division.new Division.cobroadcastedZeros
    rw [ho]; rfl
  · unfold MultiConcatenate.new
    cases h : MultiConcatenate.concatShape (ops.map Tensor.shape) a <;> simp [h]
  · unfold MultiConcatenate.new
    rw [ho]; rfl

/-- Witness for C7: the acceptance branches instantiated at concrete
    compatible shapes. -/
theorem claim7_witness :
    (broadcastShape [2, 3] [3] = some [2, 3] ∧
      Division.new ⟨[2, 3], List.replicate 6 0⟩ ⟨[3], List.replicate 3 0⟩
        = some ⟨⟨[2, 3], List.replicate 6 0⟩, ⟨[3], List.replicate 3 0⟩,
            Tensor.zeros [2, 3], false⟩) ∧
    (MultiConcatenate.concatShape [[2, 3], [2, 2]] 1 = some [2, 5] ∧
      MultiConcatenate.new
          [⟨[2, 3], List.replicate 6 0⟩, ⟨[2, 2], List.replicate 4 0⟩] 1
        = some ⟨[⟨[2, 3], List.replicate 6 0⟩, ⟨[2, 2], List.replicate 4 0⟩], 1,
            Tensor.zeros [2, 5], false⟩) :=
  ⟨⟨rfl, (claim7_construction_rejects_bad_shapes.1
      ⟨[2, 3], List.replicate 6 0⟩ ⟨[3], List.replicate 3 0⟩).2 [2, 3] rfl⟩,
   ⟨rfl, (claim7_construction_rejects_bad_shapes.2.1
      [⟨[2, 3], List.replicate 6 0⟩, ⟨[2, 2], List.replicate 4 0⟩] 1).2 [2, 5] rfl⟩⟩

/-! ### Index bookkeeping lemmas -/

theorem forall₂_getD {l1 l2 : List Nat} (h : List.Forall₂ (· < ·) l1 l2) :
    ∀ {i : Nat}, i < l1.length → ∀ d1 d2, l1.getD i d1 < l2.getD i d2 := by
  induction h with
  | nil => intro i hi; simp at hi
  | cons hxy htail ih =>
    intro i hi d1 d2
    cases i with
    | zero => simpa using hxy
    | succ i => simpa using ih (by simpa using hi) d1 d2

theorem forall₂_set {α β : Type} {R : α → β → Prop} {l1 : List α} {l2 : List β}
    (h : List.Forall₂ R l1 l2) {x : α} {y : β} (hxy : R x y) :
    ∀ i, List.Forall₂ R (l1.set i x) (l2.set i y) := by
  induction h with
  | nil => intro i; simp only [List.set_nil]; exact List.Forall₂.nil
  | cons hab htail ih =>
    intro i
    cases i with
    | zero => exact List.Forall₂.cons hxy htail
    | succ i => exact List.Forall₂.cons hab (ih i)

theorem forall₂_insertIdx {α β : Type} {R : α → β → Prop} {x : α} {y : β} (hxy : R x y) :
    ∀ (i : Nat) (l1 : List α) (l2 : List β), List.Forall₂ R l1 l2 → i ≤ l1.length →
      List.Forall₂ R (l1.insertIdx i x) (l2.insertIdx i y) := by
  intro i
  induction i with
  | zero =>
    intro l1 l2 h _
    simpa [List.insertIdx_zero] using List.Forall₂.cons hxy h
  | succ i ih =>
    intro l1 l2 h hi
    cases h with
    | nil => simp at hi
    | @cons a b l1' l2' hab htail =>
      simpa [List.insertIdx_succ_cons] using
        List.Forall₂.cons hab (ih l1' l2' htail (by simpa using hi))

theorem getD_set_self {l : List Nat} {i : Nat} (h : i < l.length) (x d : Nat) :
    (l.set i x).getD i d = x := by
  rw [List.getD_eq_getElem _ _ (by simpa using h)]
  exact List.getElem_set_self _

theorem set_getD_self {l : List Nat} {i : Nat} (h : i < l.length) (d : Nat) :
    l.set i (l.getD i d) = l := by
  rw [List.getD_eq_getElem _ _ h]
  apply List.ext_getElem
  · simp
  · intro j h1 h2
    by_cases hij : i = j
    · subst hij; exact List.getElem_set_self _
    · rw [List.getElem_set_ne]
      exact fun hh => hij hh

theorem getD_insertIdx_self {l : List Nat} {i : Nat} (h : i ≤ l.length) (x d : Nat) :
    (l.insertIdx i x).getD i d = x := by
  rw [List.getD_eq_getElem _ _ (by rw [List.length_insertIdx _ _ h]; omega)]
  exact List.getElem_insertIdx_self l x i h

/-! ### Concatenation partition lemmas -/

/-- Total extent along axis `a` of a list of operands. -/
def extSum (a : Nat) (ops : List Tensor) : Nat :=
  (ops.map fun t => t.shape.getD a 0).sum

@[simp] theorem extSum_nil (a : Nat) : extSum a [] = 0 := rfl

@[simp] theorem extSum_cons (a : Nat) (t : Tensor) (ops : List Tensor) :
    extSum a (t :: ops) = t.shape.getD a 0 + extSum a ops := by
  simp [extSum]

theorem extSum_append (a : Nat) (l1 l2 : List Tensor) :
    extSum a (l1 ++ l2) = extSum a l1 + extSum a l2 := by
  simp [extSum]

@[simp] theorem shape_writeSlice (a offset : Nat) (op acc : Tensor) :
    (writeSlice a offset op acc).shape = acc.shape := rfl

theorem shape_concatWrite (a : Nat) :
    ∀ (ops : List Tensor) (offset : Nat) (acc : Tensor),
      (concatWrite a ops offset acc).shape = acc.shape := by
  intro ops
  induction ops with
  | nil => intro offset acc; rfl
  | cons op ops ih =>
    intro offset acc
    show (concatWrite a ops (offset + op.shape.getD a 0)
      (writeSlice a offset op acc)).shape = acc.shape
    rw [ih]
    rfl

/-- Writes at offsets at or above `offset` do not touch an index whose
    axis coordinate is below `offset`. -/
theorem concatWrite_get_low (a : Nat) :
    ∀ (ops : List Tensor) (offset : Nat) (acc : Tensor) (idx : List Nat),
      idx ∈ indicesOf acc.shape → idx.getD a 0 < offset →
      (concatWrite a ops offset acc).get idx = acc.get idx := by
  intro ops
  induction ops with
  | nil => intro offset acc idx _ _; rfl
  | cons op ops ih =>
    intro offset acc idx hmem hlt
    show (concatWrite a ops (offset + op.shape.getD a 0)
      (writeSlice a offset op acc)).get idx = acc.get idx
    rw [ih (offset + op.shape.getD a 0) (writeSlice a offset op acc) idx hmem
      (lt_of_lt_of_le hlt (Nat.le_add_right _ _))]
    rw [writeSlice, Tensor.get_ofFn hmem]
    rw [if_neg]
    rintro ⟨hle, -⟩
    omega

/-- Forward placement: in the concatenation output, operand `op`'s element
    at index `idx` sits at the same index with the axis coordinate shifted
    by the total extent of the preceding operands. -/
theorem concatWrite_get_at (a : Nat) :
    ∀ (pre : List Tensor) (op : Tensor) (post : List Tensor) (offset : Nat)
      (acc : Tensor) (idx : List Nat),
      a < acc.shape.length →
      op.shape = acc.shape.set a (op.shape.getD a 0) →
      idx ∈ indicesOf op.shape →
      offset + extSum a (pre ++ op :: post) ≤ acc.shape.getD a 0 →
      (concatWrite a (pre ++ op :: post) offset acc).get
          (idx.set a (idx.getD a 0 + (offset + extSum a pre)))
        = op.get idx := by
  intro pre
  induction pre with
  | nil =>
    intro op post offset acc idx ha hop hidx htot
    have hf : List.Forall₂ (· < ·) idx op.shape := mem_indicesOf.mp hidx
    have hlen : idx.length = op.shape.length := hf.length_eq
    have hlenacc : op.shape.length = acc.shape.length := by
      rw [hop]; simp
    have halidx : a < idx.length := by omega
    have hj : idx.getD a 0 < op.shape.getD a 0 := forall₂_getD hf halidx 0 0
    simp only [List.nil_append, extSum_cons, extSum_nil, Nat.add_zero] at htot ⊢
    have hcoord : idx.getD a 0 + offset < acc.shape.getD a 0 := by omega
    have hsetshape : (op.shape.set a (acc.shape.getD a 0)) = acc.shape := by
      rw [hop, List.set_set]
      exact set_getD_self ha 0
    have hmem : idx.set a (idx.getD a 0 + offset) ∈ indicesOf acc.shape := by
      rw [← hsetshape]
      exact mem_indicesOf.mpr (forall₂_set hf hcoord a)
    show (concatWrite a post (offset + op.shape.getD a 0)
        (writeSlice a offset op acc)).get
        (idx.set a (idx.getD a 0 + offset)) = op.get idx
    rw [concatWrite_get_low a post (offset + op.shape.getD a 0)
      (writeSlice a offset op acc) (idx.set a (idx.getD a 0 + offset)) hmem
      (by rw [getD_set_self halidx]; omega)]
    rw [writeSlice, Tensor.get_ofFn hmem]
    rw [if_pos (by rw [getD_set_self halidx]; omega)]
    rw [getD_set_self halidx, Nat.add_sub_cancel, List.set_set,
      set_getD_self halidx]
  | cons t pre ih =>
    intro op post offset acc idx ha hop hidx htot
    have hcoord : offset + extSum a (t :: pre)
        = (offset + t.shape.getD a 0) + extSum a pre := by
      simp only [extSum_cons]; omega
    rw [hcoord]
    show (concatWrite a (pre ++ op :: post) (offset + t.shape.getD a 0)
        (writeSlice a offset t acc)).get
        (idx.set a (idx.getD a 0 + ((offset + t.shape.getD a 0) + extSum a pre)))
      = op.get idx
    exact ih op post (offset + t.shape.getD a 0) (writeSlice a offset t acc) idx
      ha hop hidx (by simp only [shape_writeSlice, List.cons_append,
        extSum_cons] at htot ⊢; omega)

theorem sliceAxis_get {g : Tensor} {a off len : Nat} {idx : List Nat}
    (h : idx ∈ indicesOf (g.shape.set a len)) :
    (sliceAxis g a off len).get idx = g.get (idx.set a (idx.getD a 0 + off)) :=
  Tensor.get_ofFn h _

/-- The list of accumulators produced by concatenation's backward pass:
    each operand receives the axis-aligned slice at its own offset, with the
    overwrite flag consumed. -/
def splitGrad (g : Tensor) (a : Nat) : List Tensor → Nat → List AccState
  | [], _ => []
  | op :: ops, offset =>
    ⟨some (sliceAxis g a offset (op.shape.getD a 0)), op.shape, false⟩ ::
      splitGrad g a ops (offset + op.shape.getD a 0)

theorem splitGrad_append (g : Tensor) (a : Nat) :
    ∀ (l1 l2 : List Tensor) (offset : Nat),
      splitGrad g a (l1 ++ l2) offset
        = splitGrad g a l1 offset ++ splitGrad g a l2 (offset + extSum a l1) := by
  intro l1
  induction l1 with
  | nil => intro l2 offset; simp [splitGrad]
  | cons t l1 ih =>
    intro l2 offset
    simp only [List.cons_append, splitGrad, List.cons.injEq, true_and]
    rw [show l1.append l2 = l1 ++ l2 from rfl, ih, extSum_cons, Nat.add_assoc]

/-- The backward loop, run over fresh accumulators (zero gradient of the
    operand's shape, overwrite set), produces exactly the slice partition. -/
theorem backwardLoop_eq_split (g : Tensor) (a : Nat) :
    ∀ (ops : List Tensor) (accs : List AccState) (offset : Nat),
      List.Forall₂ (fun op acc => acc.gradient = some (Tensor.zeros op.shape) ∧
        acc.shape = op.shape ∧ acc.overwrite = true) ops accs →
      MultiConcatenateBackward.backwardLoop a (some g) accs offset
        = .ok (splitGrad g a ops offset) := by
  intro ops
  induction ops with
  | nil =>
    intro accs offset h
    cases h
    rfl
  | cons op ops ih =>
    intro accs offset h
    cases h with
    | @cons _ acc _ accs hrel htail =>
      obtain ⟨hg, hsh, hov⟩ := hrel
      show (do
        let ag ← expectTensor acc.gradient
        let len := ag.shape.getD a 0
        let gr ← expectTensor (some g)
        let acc' ← pushGradient acc (sliceAxis gr a offset len)
        let rest' ← MultiConcatenateBackward.backwardLoop a (some g) accs (offset + len)
        pure (acc' :: rest')) = .ok (splitGrad g a (op :: ops) offset)
      rw [hg]
      simp only [expectTensor_some, Bind.bind, Except.bind, Tensor.shape_zeros]
      rw [pushGradient]
      rw [hg]
      simp only [expectTensor_some, Bind.bind, Except.bind, hov, if_pos rfl]
      rw [ih accs (offset + op.shape.getD a 0) htail]
      show Except.ok (⟨some (sliceAxis g a offset (op.shape.getD a 0)), acc.shape, false⟩
          :: splitGrad g a ops (offset + op.shape.getD a 0))
        = .ok (splitGrad g a (op :: ops) offset)
      rw [hsh]
      rfl

def exOpA : Tensor := ⟨[2, 3], [1, 2, 3, 4, 5, 6]⟩

def exOpB : Tensor := ⟨[2, 2], [10, 20, 30, 40]⟩

/-- Claim C4: concatenation is an order-sensitive round trip.  `forward`
    copies each operand into a disjoint axis-aligned slice at the offset
    given by the total extent of the preceding operands, in operand order;
    `backward` re-derives the same partition from the operands' gradient
    extents and pushes each slice into the matching accumulator, so the
    slices recover the operand values exactly — concretely for shapes
    (2,3) and (2,2) concatenated along axis 1 into (2,5). -/
theorem claim4_concatenate_round_trip :
    (∀ (s : MultiConcatenateState) (pre post : List Tensor) (op : Tensor)
      (idx : List Nat),
      s.computed = false →
      s.operands = pre ++ op :: post →
      s.axis < s.data.shape.length →
      (∀ t ∈ s.operands, t.shape = s.data.shape.set s.axis (t.shape.getD s.axis 0)) →
      extSum s.axis s.operands ≤ s.data.shape.getD s.axis 0 →
      idx ∈ indicesOf op.shape →
      (MultiConcatenate.forward s).data.get
          (idx.set s.axis (idx.getD s.axis 0 + extSum s.axis pre))
        = op.get idx) ∧
    (∀ (s : MultiConcatenateBackwardState) (g : Tensor) (ops : List Tensor),
      s.gradient = some g →
      List.Forall₂ (fun op acc => acc.gradient = some (Tensor.zeros op.shape) ∧
        acc.shape = op.shape ∧ acc.overwrite = true) ops s.operands →
      MultiConcatenateBackward.backward s
        = .ok { s with operands := splitGrad g s.axis ops 0 }) ∧
    (∀ (s : MultiConcatenateState) (pre post : List Tensor) (op : Tensor)
      (idx : List Nat),
      s.computed = false →
      s.operands = pre ++ op :: post →
      s.axis < s.data.shape.length →
      (∀ t ∈ s.operands, t.shape = s.data.shape.set s.axis (t.shape.getD s.axis 0)) →
      extSum s.axis s.operands ≤ s.data.shape.getD s.axis 0 →
      idx ∈ indicesOf op.shape →
      (sliceAxis (MultiConcatenate.forward s).data s.axis (extSum s.axis pre)
          (op.shape.getD s.axis 0)).get idx
        = op.get idx) ∧
    MultiConcatenate.forward ⟨[exOpA, exOpB], 1, Tensor.zeros [2, 5], false⟩
      = ⟨[exOpA, exOpB], 1, ⟨[2, 5], [1, 2, 3, 10, 20, 4, 5, 6, 30, 40]⟩, true⟩ ∧
    MultiConcatenateBackward.backward exMCB = .ok exMCBres ∧
    exMCBres.operands.map AccState.gradient = [some exOpA, some exOpB] := by
  have hfwd : ∀ (s : MultiConcatenateState) (pre post : List Tensor) (op : Tensor)
      (idx : List Nat),
      s.computed = false →
      s.operands = pre ++ op :: post →
      s.axis < s.data.shape.length →
      (∀ t ∈ s.operands, t.shape = s.data.shape.set s.axis (t.shape.getD s.axis 0)) →
      extSum s.axis s.operands ≤ s.data.shape.getD s.axis 0 →
      idx ∈ indicesOf op.shape →
      (MultiConcatenate.forward s).data.get
          (idx.set s.axis (idx.getD s.axis 0 + extSum s.axis pre))
        = op.get idx := by
    intro s pre post op idx hc hops ha hsh htot hidx
    have hmemop : op ∈ s.operands := by
      rw [hops]
      exact List.mem_append.mpr (Or.inr (List.mem_cons_self op post))
    have hop : op.shape = s.data.shape.set s.axis (op.shape.getD s.axis 0) :=
      hsh op hmemop
    have hfs : MultiConcatenate.forward s
        = { s with computed := true, data := concatWrite s.axis s.operands 0 s.data } := by
      simp [MultiConcatenate.forward, hc]
    rw [hfs]
    show (concatWrite s.axis s.operands 0 s.data).get
        (idx.set s.axis (idx.getD s.axis 0 + extSum s.axis pre)) = op.get idx
    rw [hops]
    rw [show idx.getD s.axis 0 + extSum s.axis pre
        = idx.getD s.axis 0 + (0 + extSum s.axis pre) by omega]
    exact concatWrite_get_at s.axis pre op post 0 s.data idx ha hop hidx
      (by rw [Nat.zero_add, ← hops]; exact htot)
  refine ⟨hfwd, ?_, ?_, by rfl, by rfl, by rfl⟩
  · intro s g ops hg hrel
    unfold MultiConcatenateBackward.backward
    rw [hg, backwardLoop_eq_split g s.axis ops s.operands 0 hrel]
    rfl
  · intro s pre post op idx hc hops ha hsh htot hidx
    have hmemop : op ∈ s.operands := by
      rw [hops]
      exact List.mem_append.mpr (Or.inr (List.mem_cons_self op post))
    have hop : op.shape = s.data.shape.set s.axis (op.shape.getD s.axis 0) :=
      hsh op hmemop
    have hshape : (MultiConcatenate.forward s).data.shape = s.data.shape := by
      simp [MultiConcatenate.forward, hc, shape_concatWrite]
    have hmem : idx ∈ indicesOf ((MultiConcatenate.forward s).data.shape.set s.axis
        (op.shape.getD s.axis 0)) := by
      rw [hshape, ← hop]; exact hidx
    rw [sliceAxis_get hmem]
    have hj : idx.getD s.axis 0 = idx.getD s.axis 0 := rfl
    exact hfwd s pre post op idx hc hops ha hsh htot hidx

/-- Witness for C4 at the concrete (2,3) ++ (2,2) example: operand B's
    element at index (1,0) is found at output index (1,3), the backward
    split, and the slice recovery of operand B. -/
theorem claim4_witness :
    ((⟨[exOpA, exOpB], 1, Tensor.zeros [2, 5], false⟩ :
        MultiConcatenateState).computed = false ∧
      (MultiConcatenate.forward ⟨[exOpA, exOpB], 1, Tensor.zeros [2, 5], false⟩).data.get
          ([1, 0].set 1 ([1, 0].getD 1 0 + extSum 1 [exOpA]))
        = exOpB.get [1, 0]) ∧
    (exMCB.gradient = some ⟨[2, 5], [1, 2, 3, 10, 20, 4, 5, 6, 30, 40]⟩ ∧
      MultiConcatenateBackward.backward exMCB
        = .ok { exMCB with
            operands := splitGrad ⟨[2, 5], [1, 2, 3, 10, 20, 4, 5, 6, 30, 40]⟩ 1
              [exOpA, exOpB] 0 }) ∧
    (sliceAxis (MultiConcatenate.forward
          ⟨[exOpA, exOpB], 1, Tensor.zeros [2, 5], false⟩).data 1 (extSum 1 [exOpA])
        (exOpB.shape.getD 1 0)).get [1, 0]
      = exOpB.get [1, 0] :=
  ⟨⟨rfl, claim4_concatenate_round_trip.1
      ⟨[exOpA, exOpB], 1, Tensor.zeros [2, 5], false⟩ [exOpA] [] exOpB [1, 0]
      rfl rfl (by decide) (by decide) (by decide) (by decide)⟩,
   ⟨rfl, claim4_concatenate_round_trip.2.1 exMCB
      ⟨[2, 5], [1, 2, 3, 10, 20, 4, 5, 6, 30, 40]⟩ [exOpA, exOpB] rfl
      (List.Forall₂.cons ⟨rfl, rfl, rfl⟩
        (List.Forall₂.cons ⟨rfl, rfl, rfl⟩ List.Forall₂.nil))⟩,
   claim4_concatenate_round_trip.2.2.1
      ⟨[exOpA, exOpB], 1, Tensor.zeros [2, 5], false⟩ [exOpA] [] exOpB [1, 0]
      rfl rfl (by decide) (by decide) (by decide) (by decide)⟩

/-- Claim C10: unsqueeze is a pure reshaping round trip.  Construction
    inserts a size-1 axis at `axis` into the operand's shape; after
    `forward()` the output viewed with that axis removed equals the
    operand's data element-for-element; and `backward()` pushes exactly its
    own gradient viewed with the axis removed into the operand's
    accumulator. -/
theorem claim10_unsqueeze_round_trip :
    (∀ (t : Tensor) (a : Nat),
      (Unsqueeze.new t a).data.shape = t.shape.insertIdx a 1 ∧
      (Unsqueeze.new t a).data = Tensor.zeros (t.shape.insertIdx a 1) ∧
      (Unsqueeze.new t a).computed = false) ∧
    (∀ (s : UnsqueezeState) (sh : Shape),
      s.computed = false →
      s.operand.shape = sh →
      s.data.shape = sh.insertIdx s.axis 1 →
      s.axis ≤ sh.length →
      (squeezeView (Unsqueeze.forward s).data s.axis).shape = sh ∧
      ∀ idx ∈ indicesOf sh,
        (squeezeView (Unsqueeze.forward s).data s.axis).get idx
          = s.operand.get idx) ∧
    (∀ s s' : UnsqueezeBackwardState, UnsqueezeBackward.backward s = .ok s' →
      ∃ g, s.gradient = some g ∧
        pushGradient s.operand (squeezeView g s.axis) = .ok s'.operand) ∧
    (Unsqueeze.forward (Unsqueeze.new ⟨[2], [7, 8]⟩ 0)).data = ⟨[1, 2], [7, 8]⟩ ∧
    squeezeView (Unsqueeze.forward (Unsqueeze.new ⟨[2], [7, 8]⟩ 0)).data 0
      = ⟨[2], [7, 8]⟩ ∧
    UnsqueezeBackward.backward exUB = .ok exUBres ∧
    exUBres.operand.gradient = some (squeezeView ⟨[1, 2], [7, 8]⟩ 0) := by
  refine ⟨fun t a => ⟨rfl, rfl, rfl⟩, ?_, ?_, by rfl, by rfl, by rfl, by rfl⟩
  · intro s sh hc hopsh hdsh ha
    have hfs : Unsqueeze.forward s
        = { s with
            computed := true
            data := Tensor.ofFn s.data.shape fun idx =>
              if idx.getD s.axis 0 = 0 then s.operand.get (idx.eraseIdx s.axis)
              else s.data.get idx } := by
      simp [Unsqueeze.forward, hc]
    have hshape : (squeezeView (Unsqueeze.forward s).data s.axis).shape = sh := by
      rw [hfs]
      show (s.data.shape.eraseIdx s.axis) = sh
      rw [hdsh, List.eraseIdx_insertIdx]
    refine ⟨hshape, fun idx hidx => ?_⟩
    have hf : List.Forall₂ (· < ·) idx sh := mem_indicesOf.mp hidx
    have hlen : idx.length = sh.length := hf.length_eq
    have haidx : s.axis ≤ idx.length := by omega
    have hins : idx.insertIdx s.axis 0 ∈ indicesOf (sh.insertIdx s.axis 1) :=
      mem_indicesOf.mpr (forall₂_insertIdx (by omega) s.axis idx sh hf haidx)
    have hmem2 : idx ∈ indicesOf ((Unsqueeze.forward s).data.shape.eraseIdx s.axis) := by
      rw [hfs]
      show idx ∈ indicesOf (s.data.shape.eraseIdx s.axis)
      rw [hdsh, List.eraseIdx_insertIdx]
      exact hidx
    rw [squeezeView, Tensor.get_ofFn hmem2]
    rw [hfs]
    show (Tensor.ofFn s.data.shape fun i =>
        if i.getD s.axis 0 = 0 then s.operand.get (i.eraseIdx s.axis)
        else s.data.get i).get (idx.insertIdx s.axis 0) = s.operand.get idx
    have hins' : idx.insertIdx s.axis 0 ∈ indicesOf s.data.shape := by
      rw [hdsh]; exact hins
    rw [Tensor.get_ofFn hins']
    rw [if_pos (getD_insertIdx_self haidx 0 0)]
    rw [List.eraseIdx_insertIdx]
  · intro s s' h
    unfold UnsqueezeBackward.backward at h
    rw [bindOk] at h; obtain ⟨g, hg, h⟩ := h
    rw [bindOk] at h; obtain ⟨op', hop, h⟩ := h
    simp only [pure, Except.pure, Except.ok.injEq] at h
    refine ⟨g, expectOk.mp hg, ?_⟩
    rw [← h]
    exact hop

/-- Witness for C10 at the rank-1 unsqueeze example: operand `[7, 8]`,
    axis 0. -/
theorem claim10_witness :
    ((Unsqueeze.new ⟨[2], [7, 8]⟩ 0).computed = false ∧
      (squeezeView (Unsqueeze.forward (Unsqueeze.new ⟨[2], [7, 8]⟩ 0)).data 0).shape
        = [2] ∧
      (squeezeView (Unsqueeze.forward (Unsqueeze.new ⟨[2], [7, 8]⟩ 0)).data 0).get [1]
        = (⟨[2], [7, 8]⟩ : Tensor).get [1]) ∧
    (UnsqueezeBackward.backward exUB = .ok exUBres ∧
      ∃ g, exUB.gradient = some g ∧
        pushGradient exUB.operand (squeezeView g exUB.axis) = .ok exUBres.operand) :=
  ⟨⟨rfl,
    (claim10_unsqueeze_round_trip.2.1 (Unsqueeze.new ⟨[2], [7, 8]⟩ 0) [2]
      rfl rfl rfl (by decide)).1,
    (claim10_unsqueeze_round_trip.2.1 (Unsqueeze.new ⟨[2], [7, 8]⟩ 0) [2]
      rfl rfl rfl (by decide)).2 [1] (by decide)⟩,
   ⟨by rfl,
    claim10_unsqueeze_round_trip.2.2.1 exUB exUBres (by rfl)⟩⟩

end Neuronika
